import Mathlib

/-!
Verification of the `benfords` Go package (DataFinnovation/go-benfords).

The package implements a Benford's-law distribution over leading digits in an
arbitrary integer base, together with a leading-digit extractor and
goodness-of-fit statistics.  Here the Go code is shallowly embedded:

* Go `float64` values produced by `math.Log` arithmetic are modelled as real
  numbers (`ℝ`); `math.Inf(-1)` is modelled as `⊥ : EReal`.
* The leading-digit extractor works only with `*`, `<`, truncation and integer
  division, so its float argument is modelled exactly as a rational (`ℚ`) and
  its loops as well-founded recursions.
* Go `int` is modelled as `ℤ` (no overflow is exercised by the claims).
* `log.Panic` is modelled by returning `none` from an `Option` result.
-/

namespace Benfords

/-- Go source `Prob` (benfords.go:26-34):
`if x < 1 { return 0 }; if x > (b.Base - 1.0) { return 0 };
return math.Log(1.0+1.0/float64(x)) / math.Log(float64(b.Base))`. -/
noncomputable def Prob (base : ℤ) (x : ℤ) : ℝ :=
  if x < 1 then 0
  else if x > base - 1 then 0
  else Real.log (1 + 1 / (x : ℝ)) / Real.log (base : ℝ)

/-- Go source `LogProb` (benfords.go:37-46):
`if x < 1 || x > (b.Base-1) { return math.Inf(-1) }; p := b.Prob(x);
if p == 0.0 { return math.Inf(-1) }; return p`.
Note that the final statement returns `p` itself, not `math.Log(p)`. -/
noncomputable def LogProb (base : ℤ) (x : ℤ) : EReal :=
  if x < 1 ∨ x > base - 1 then ⊥
  else if Prob base x = 0 then ⊥
  else ((Prob base x : ℝ) : EReal)

/-- Go source `CDF` (benfords.go:49-61):
`if x < 1 { return 0 }; if x > (b.Base - 1) { return 1.0 };
tot := 0.0; for i := 1; i < b.Base; i++ { tot += b.Prob(i) }; return tot`.
The loop bound is `b.Base`, independent of `x`: the sum ranges over the whole
domain.  The loop counter `i = iter + 1` for `iter` below. -/
noncomputable def CDF (base : ℤ) (x : ℤ) : ℝ :=
  if x < 1 then 0
  else if x > base - 1 then 1
  else ∑ iter ∈ Finset.range (base - 1).toNat, Prob base ((iter : ℤ) + 1)

/-- Go source `FullPDF` (benfords.go:69-75): a slice of length `Base-1` whose
entry `i` is `Prob(i+1)`. -/
noncomputable def FullPDF (base : ℤ) : List ℝ :=
  (List.range (base - 1).toNat).map (fun (i : ℕ) => Prob base ((i : ℤ) + 1))

/-- Go source `FullCDF` (benfords.go:78-86): a slice of length `Base-1` whose
entry `i` holds the running total `Prob(1) + ... + Prob(i+1)`. -/
noncomputable def FullCDF (base : ℤ) : List ℝ :=
  (List.range (base - 1).toNat).map
    (fun (i : ℕ) => ∑ j ∈ Finset.range (i + 1), Prob base ((j : ℤ) + 1))

/-- Go source `Domain` (benfords.go:89-95): the slice `[1, 2, ..., Base-1]`. -/
def Domain (base : ℤ) : List ℤ :=
  (List.range (base - 1).toNat).map (fun (i : ℕ) => (i : ℤ) + 1)

/-! ### The leading-digit extractor

Go source `LeadDigit` (benfords.go:143-157):
`if n < 0 { n = -n }`
`if n < 1 { for n < 1 { n = float64(base) * n } }`
`resid := int(n); for resid >= base { resid = resid / base }; return resid`.

The two loops are modelled as well-founded recursions.  Each recursion guard
is the Go loop condition strengthened by exactly the conditions under which
the Go loop would not terminate (`n ≤ 0`, or `base ≤ 1`); on such inputs the
Go code loops forever, so no claim constrains them.  After the absolute-value
step the float is nonnegative, so Go truncation `int(n)` is the floor, and
the Go integer division of nonnegative `int` values is `ℕ` division. -/

/-- The multiply-up loop: `for n < 1 { n = float64(base) * n }`. -/
def mulUp (base : ℤ) (n : ℚ) : ℚ :=
  if h : 0 < n ∧ n < 1 ∧ 1 < base then mulUp base ((base : ℚ) * n) else n
termination_by (⌈1/n⌉).toNat
decreasing_by
  obtain ⟨hn, hn1, hb⟩ := h
  have hb2 : (2:ℚ) ≤ (base:ℚ) := by exact_mod_cast hb
  have h1n : (1:ℚ) < 1/n := by rw [lt_div_iff₀ hn]; linarith
  have hc2 : (2:ℤ) ≤ ⌈1/n⌉ := by
    have := Int.lt_ceil.mpr (by exact_mod_cast h1n : ((1:ℤ):ℚ) < 1/n)
    omega
  have hle : 1/((base:ℚ)*n) ≤ ((⌈1/n⌉ - 1 : ℤ) : ℚ) := by
    have hbn : (0:ℚ) < (base:ℚ)*n := by positivity
    have h1 : 1/((base:ℚ)*n) ≤ (1/n)/2 := by
      rw [div_le_div_iff₀ hbn (by norm_num)]
      calc (1:ℚ) * 2 = 2 := by ring
        _ ≤ (base:ℚ) * n * (1/n) := by
            rw [mul_assoc, mul_one_div, div_self (ne_of_gt hn), mul_one]; exact hb2
        _ = 1/n * ((base:ℚ) * n) := by ring
    have h2 : (1/n)/2 ≤ ((⌈1/n⌉:ℚ))/2 := by
      have := Int.le_ceil (1/n)
      linarith
    have h3 : ((⌈1/n⌉:ℚ))/2 ≤ ((⌈1/n⌉ - 1 : ℤ) : ℚ) := by
      push_cast
      have : (2:ℚ) ≤ ((⌈1/n⌉:ℤ):ℚ) := by exact_mod_cast hc2
      linarith
    linarith
  have := Int.ceil_le.mpr hle
  omega

/-- The divide-down loop: `for resid >= base { resid = resid / base }`. -/
def divDown (base : ℕ) (r : ℕ) : ℕ :=
  if h : base ≤ r ∧ 1 < base then divDown base (r / base) else r
termination_by r
decreasing_by exact Nat.div_lt_self (lt_of_lt_of_le (by omega) h.1) h.2

/-- Go source `LeadDigit` (benfords.go:143-157), assembled from the two loops
above together with the absolute-value step and the truncation `int(n)`. -/
def LeadDigit (n : ℚ) (base : ℤ) : ℤ :=
  ((divDown base.toNat (⌊mulUp base (if n < 0 then -n else n)⌋).toNat : ℕ) : ℤ)

/-- Go source `ComputeLeadDigitDistribution` loop body (benfords.go:167-173):
each value that is neither `0.0` nor `NaN` (a `ℚ` has no NaN, so the filter is
`v ≠ 0`) bumps the tally of its lead digit and the valid-sample counter, a Go
`float64`.  The state is `(dist, validValues)`. -/
def distStep (base : ℤ) (st : List ℚ × ℚ) (v : ℚ) : List ℚ × ℚ :=
  if v ≠ 0 then
    let ld := LeadDigit v base
    (st.1.set (ld - 1).toNat (st.1.getD (ld - 1).toNat 0 + 1), st.2 + 1)
  else st

/-- Go source `ComputeLeadDigitDistribution` (benfords.go:164-178): start from
a zero slice of length `base-1`, tally lead digits of the valid samples, then
divide every tally by `validValues` and return the result with
`int(validValues)`. -/
def ComputeLeadDigitDistribution (values : List ℚ) (base : ℤ) : List ℚ × ℤ :=
  let init : List ℚ := List.replicate (base - 1).toNat 0
  let fin := values.foldl (distStep base) (init, 0)
  (fin.1.map (fun v => v / fin.2), ⌊fin.2⌋)

/-! ### Sampling and goodness-of-fit statistics -/

/-- The scan loop of Go `Rand` (benfords.go:108-112):
`for i, v := range cdf { if p < v { return domain[i] } }` followed by the
fallback return.  The two slices are walked in lockstep. -/
noncomputable def randScan : List ℝ → List ℤ → ℝ → ℤ → ℤ
  | v :: cdfRest, d :: domRest, p, fallback =>
      if p < v then d else randScan cdfRest domRest p fallback
  | _, _, _, fallback => fallback

/-- Go source `Rand` (benfords.go:98-114): the uniform draw `p := runif()` is
modelled as an explicit parameter (the spec treats the randomness source as an
injectable dependency); the function then scans `FullCDF` against `Domain` and
falls back to `Base - 1`. -/
noncomputable def Rand (base : ℤ) (p : ℝ) : ℤ :=
  randScan (FullCDF base) (Domain base) p (base - 1)

/-- Spec-side definition for the sampling claim: the index of the first entry
of a list that strictly exceeds `p` ("scan `full_cdf()` in increasing-digit
order, and return the first digit whose cumulative probability exceeds `p`").
The `Rand` implementation is proved to refine this. -/
noncomputable def firstExceedIdx (p : ℝ) : List ℝ → Option ℕ
  | [] => none
  | v :: rest => if p < v then some 0 else (firstExceedIdx p rest).map (· + 1)

/-- Go source `ChoGainesStat` (benfords.go:117-127).  `log.Panic` on length
mismatch is modelled as `none`; otherwise the squared differences are summed
and `sqrt(nSamples * totDiff)` is returned. -/
noncomputable def ChoGainesStat (base : ℤ) (nSamples : ℤ) (realisedDist : List ℝ) :
    Option ℝ :=
  if (FullPDF base).length ≠ realisedDist.length then none
  else some (Real.sqrt ((nSamples : ℝ) *
    ((realisedDist.zip (FullPDF base)).foldl (fun tot rp => tot + (rp.1 - rp.2) ^ 2) 0)))

/-- Go source `LeemisStat` (benfords.go:130-140).  `log.Panic` on length
mismatch is modelled as `none`; otherwise `sqrt(nSamples) * maxDiff` is
returned. -/
noncomputable def LeemisStat (base : ℤ) (nSamples : ℤ) (realisedDist : List ℝ) :
    Option ℝ :=
  if (FullPDF base).length ≠ realisedDist.length then none
  else some (Real.sqrt (nSamples : ℝ) *
    ((realisedDist.zip (FullPDF base)).foldl (fun mx rp => max mx |rp.1 - rp.2|) 0))

/-- Go source `ChiSquarePValue` (benfords.go:196-202).  `log.Panic` on length
mismatch is modelled as `none`.  The body delegates to the external gonum
`stat.ChiSquare`, which is outside this repository, so it is taken as a
function parameter. -/
noncomputable def ChiSquarePValue (chiSquare : List ℝ → List ℝ → ℝ) (base : ℤ)
    (dist : List ℝ) : Option ℝ :=
  if (dist.length : ℤ) ≠ base - 1 then none
  else some (chiSquare (FullPDF base) dist)

/-! ### Helper lemmas about `Prob` -/

/-- On the domain `[1, base-1]` the probability is the Benford formula. -/
theorem Prob_eq_of_mem (base x : ℤ) (h1 : 1 ≤ x) (h2 : x ≤ base - 1) :
    Prob base x = Real.log (1 + 1 / (x : ℝ)) / Real.log (base : ℝ) := by
  unfold Prob
  rw [if_neg (by omega), if_neg (by omega)]

/-- On the domain the probability is strictly positive. -/
theorem Prob_pos (base x : ℤ) (hb : 2 ≤ base) (h1 : 1 ≤ x) (h2 : x ≤ base - 1) :
    0 < Prob base x := by
  rw [Prob_eq_of_mem base x h1 h2]
  have hx : (1 : ℝ) ≤ (x : ℝ) := by exact_mod_cast h1
  have hxpos : (0 : ℝ) < (x : ℝ) := by linarith
  have hnum : 0 < Real.log (1 + 1 / (x : ℝ)) := by
    apply Real.log_pos
    have : 0 < 1 / (x : ℝ) := by positivity
    linarith
  have hden : 0 < Real.log (base : ℝ) := by
    apply Real.log_pos
    exact_mod_cast lt_of_lt_of_le one_lt_two hb
  exact div_pos hnum hden

/-- Each loop term of the CDF/PDF sums, rewritten as a difference of logs. -/
theorem Prob_term_telescope (base : ℤ) (hb : 2 ≤ base) (i : ℕ)
    (hi : i < (base - 1).toNat) :
    Prob base ((i : ℤ) + 1)
      = (Real.log ((i : ℝ) + 1 + 1) - Real.log ((i : ℝ) + 1)) / Real.log (base : ℝ) := by
  have h2 : (i : ℤ) + 1 ≤ base - 1 := by omega
  rw [Prob_eq_of_mem base ((i : ℤ) + 1) (by omega) h2]
  have hcast : (((i : ℤ) + 1 : ℤ) : ℝ) = (i : ℝ) + 1 := by push_cast; ring
  rw [hcast]
  have hipos : (0 : ℝ) < (i : ℝ) + 1 := by positivity
  have harg : 1 + 1 / ((i : ℝ) + 1) = ((i : ℝ) + 1 + 1) / ((i : ℝ) + 1) := by
    field_simp
  rw [harg, Real.log_div (by positivity) (ne_of_gt hipos)]

/-- The sum computed by the Go `CDF` loop (all of `Prob(1) .. Prob(base-1)`)
telescopes to exactly `1`. -/
theorem sum_Prob_eq_one (base : ℤ) (hb : 2 ≤ base) :
    ∑ iter ∈ Finset.range (base - 1).toNat, Prob base ((iter : ℤ) + 1) = 1 := by
  have hterm : ∀ i ∈ Finset.range (base - 1).toNat,
      Prob base ((i : ℤ) + 1)
        = (Real.log ((i : ℝ) + 1 + 1) - Real.log ((i : ℝ) + 1)) / Real.log (base : ℝ) :=
    fun i hi => Prob_term_telescope base hb i (Finset.mem_range.mp hi)
  rw [Finset.sum_congr rfl hterm, ← Finset.sum_div]
  have htel : ∑ i ∈ Finset.range (base - 1).toNat,
      (Real.log ((i : ℝ) + 1 + 1) - Real.log ((i : ℝ) + 1))
        = Real.log (((base - 1).toNat : ℝ) + 1) - Real.log ((0 : ℝ) + 1) := by
    have := Finset.sum_range_sub (fun j => Real.log ((j : ℝ) + 1)) (base - 1).toNat
    simpa using this
  rw [htel]
  have hcast : ((base - 1).toNat : ℝ) + 1 = (base : ℝ) := by
    have : ((base - 1).toNat : ℤ) = base - 1 := Int.toNat_of_nonneg (by omega)
    have hr : (((base - 1).toNat : ℤ) : ℝ) = ((base - 1 : ℤ) : ℝ) := by rw [this]
    push_cast at hr
    linarith
  rw [hcast]
  simp only [zero_add, Real.log_one, sub_zero]
  have hden : 0 < Real.log (base : ℝ) := by
    apply Real.log_pos
    exact_mod_cast lt_of_lt_of_le one_lt_two hb
  exact div_self (ne_of_gt hden)

/-- Summing a function mapped over `List.range` agrees with the `Finset` sum. -/
theorem list_range_map_sum (f : ℕ → ℝ) (n : ℕ) :
    ((List.range n).map f).sum = ∑ i ∈ Finset.range n, f i := by
  induction n with
  | zero => simp
  | succ m ih =>
      rw [List.range_succ, List.map_append, List.sum_append, Finset.sum_range_succ, ih]
      simp

/-- The Benford probability at `1` in base `10` is `log 2 / log 10`, which is
strictly less than `1`. -/
theorem Prob_ten_one_lt_one : Prob 10 1 < 1 := by
  have h : Prob 10 1 = Real.log 2 / Real.log 10 := by
    rw [Prob_eq_of_mem 10 1 (by omega) (by omega)]
    norm_num
  rw [h]
  have hden : 0 < Real.log 10 := Real.log_pos (by norm_num)
  rw [div_lt_one hden]
  exact Real.log_lt_log (by norm_num) (by norm_num)

/-! ### Claims C1, C2, C4, C5 -/

/-- Claim C4: for base at least 3, `Prob x` is the Benford formula
`log(1 + 1/x) / log base` on `1 ≤ x ≤ base - 1`, and is `0` for `x < 1` and
for `x > base - 1` (equivalently `x ≥ base`). -/
theorem prob_formula_and_domain_clamp (base x : ℤ) (hb : 3 ≤ base) :
    (1 ≤ x → x ≤ base - 1 → Prob base x = Real.log (1 + 1 / (x : ℝ)) / Real.log (base : ℝ)) ∧
    (x < 1 → Prob base x = 0) ∧
    (base - 1 < x → Prob base x = 0) := by
  refine ⟨fun h1 h2 => Prob_eq_of_mem base x h1 h2, fun h => ?_, fun h => ?_⟩
  · unfold Prob
    rw [if_pos h]
  · unfold Prob
    rw [if_neg (by omega), if_pos (by omega)]

/-- Witness for claim C4 at `base = 10` and digits `5`, `0`, `12`. -/
theorem prob_formula_and_domain_clamp_witness :
    Prob 10 5 = Real.log (1 + 1 / ((5 : ℤ) : ℝ)) / Real.log ((10 : ℤ) : ℝ) ∧
    Prob 10 0 = 0 ∧ Prob 10 12 = 0 :=
  ⟨(prob_formula_and_domain_clamp 10 5 (by norm_num)).1 (by norm_num) (by norm_num),
   (prob_formula_and_domain_clamp 10 0 (by norm_num)).2.1 (by norm_num),
   (prob_formula_and_domain_clamp 10 12 (by norm_num)).2.2 (by norm_num)⟩

/-- Claim C5: for base at least 3, the entries of `FullPDF` sum to exactly `1`
(real arithmetic). -/
theorem fullPDF_sums_to_one (base : ℤ) (hb : 3 ≤ base) : (FullPDF base).sum = 1 := by
  unfold FullPDF
  rw [list_range_map_sum]
  exact sum_Prob_eq_one base (by omega)

/-- Witness for claim C5 at `base = 10`. -/
theorem fullPDF_sums_to_one_witness : (3 : ℤ) ≤ 10 ∧ (FullPDF 10).sum = 1 :=
  ⟨by norm_num, fullPDF_sums_to_one 10 (by norm_num)⟩

/-- Claim C1 counterexample: the Go `CDF` loop ignores `x` and always adds up
the whole PDF, so `CDF 10 1 = 1`, while the claimed partial sum up to `1` is
`Prob 10 1 < 1`.  (The code contradicts its own doc comment, the spec, and the
running-total structure of `FullCDF`.) -/
theorem cdf_ignores_digit_at_base_ten : CDF 10 1 = 1 ∧ Prob 10 1 < 1 := by
  constructor
  · unfold CDF
    rw [if_neg (by omega), if_neg (by omega)]
    exact sum_Prob_eq_one 10 (by norm_num)
  · exact Prob_ten_one_lt_one

/-- Claim C2 counterexample: the Go `LogProb` returns the probability itself
(the final statement is `return p`, not `return math.Log(p)`): at base `10`,
digit `1`, the result equals `Prob 10 1`, which differs from
`log (Prob 10 1)` since `0 < Prob 10 1 < 1` forces the log to be negative. -/
theorem logProb_returns_prob_at_base_ten :
    LogProb 10 1 = ((Prob 10 1 : ℝ) : EReal) ∧ Prob 10 1 ≠ Real.log (Prob 10 1) := by
  have hpos : 0 < Prob 10 1 := Prob_pos 10 1 (by norm_num) (by norm_num) (by norm_num)
  constructor
  · unfold LogProb
    rw [if_neg (by omega), if_neg (ne_of_gt hpos)]
  · have hneg : Real.log (Prob 10 1) < 0 := Real.log_neg hpos Prob_ten_one_lt_one
    intro hcontra
    linarith [hcontra ▸ hneg]

/-! ### Helper lemmas about the loops -/

/-- The absolute-value step of `LeadDigit` yields a positive number on any
nonzero input. -/
theorem abs_step_pos (q : ℚ) (hq : q ≠ 0) : 0 < if q < 0 then -q else q := by
  split <;> rename_i h
  · linarith
  · rcases lt_or_eq_of_le (not_lt.mp h) with h1 | h1
    · exact h1
    · exact absurd h1.symm hq

/-- The multiply-up loop is the loop body iterated finitely often (`k` times)
and its result satisfies the loop exit condition `1 ≤ n`. -/
theorem mulUp_spec (base : ℤ) (n : ℚ) (hn : 0 < n) (hb : 1 < base) :
    ∃ k : ℕ, mulUp base n = (base : ℚ) ^ k * n ∧ 1 ≤ mulUp base n := by
  induction n using mulUp.induct base with
  | case1 n h ih =>
      obtain ⟨k, hk, h1⟩ := ih (by have := h.2.2; positivity)
      rw [mulUp, dif_pos h]
      exact ⟨k + 1, by rw [hk]; ring, h1⟩
  | case2 n h =>
      rw [mulUp, dif_neg h]
      push_neg at h
      rcases lt_or_le n 1 with h1 | h1
      · exact absurd hb (by simpa using h hn h1)
      · exact ⟨0, by ring, h1⟩

/-- The divide-down loop is the loop body iterated finitely often (`j` times)
and its result satisfies the loop exit condition `r < base`. -/
theorem divDown_spec (b : ℕ) (hb : 1 < b) (r : ℕ) :
    ∃ j : ℕ, divDown b r = r / b ^ j ∧ divDown b r < b := by
  induction r using divDown.induct b with
  | case1 r h ih =>
      obtain ⟨j, hj, hlt⟩ := ih
      rw [divDown, dif_pos h]
      refine ⟨j + 1, ?_, hlt⟩
      rw [hj, Nat.div_div_eq_div_mul, ← pow_succ']
  | case2 r h =>
      rw [divDown, dif_neg h]
      exact ⟨0, by simp, by omega⟩

/-- The divide-down loop sends anything at least `1` into `[1, base-1]`. -/
theorem divDown_bounds (b r : ℕ) (hb : 2 ≤ b) (hr : 1 ≤ r) :
    1 ≤ divDown b r ∧ divDown b r < b := by
  induction r using divDown.induct b with
  | case1 r h ih =>
      rw [divDown, dif_pos h]
      exact ih ((Nat.one_le_div_iff (by omega)).mpr h.1)
  | case2 r h =>
      rw [divDown, dif_neg h]
      refine ⟨hr, ?_⟩
      by_contra hcon
      exact h ⟨by omega, by omega⟩

/-- `LeadDigit` returns a digit in `[1, base-1]` on any nonzero input. -/
theorem leadDigit_bounds (base : ℤ) (hb : 2 ≤ base) (q : ℚ) (hq : q ≠ 0) :
    1 ≤ LeadDigit q base ∧ LeadDigit q base ≤ base - 1 := by
  unfold LeadDigit
  have hpos := abs_step_pos q hq
  obtain ⟨_, _, h1⟩ := mulUp_spec base (if q < 0 then -q else q) hpos (by omega)
  have hfl : 1 ≤ (⌊mulUp base (if q < 0 then -q else q)⌋).toNat := by
    have : (1 : ℤ) ≤ ⌊mulUp base (if q < 0 then -q else q)⌋ :=
      Int.le_floor.mpr (by exact_mod_cast h1)
    omega
  have hb2 : 2 ≤ base.toNat := by omega
  obtain ⟨hlo, hhi⟩ := divDown_bounds base.toNat _ hb2 hfl
  constructor
  · exact_mod_cast hlo
  · have : (divDown base.toNat (⌊mulUp base (if q < 0 then -q else q)⌋).toNat : ℤ)
        < (base.toNat : ℤ) := by exact_mod_cast hhi
    omega

/-- The tally step never changes the length of the distribution slice. -/
theorem distStep_length (base : ℤ) (st : List ℚ × ℚ) (v : ℚ) :
    (distStep base st v).1.length = st.1.length := by
  unfold distStep
  split <;> simp

/-- Folding the tally step never changes the length of the distribution
slice. -/
theorem foldl_distStep_length (base : ℤ) (values : List ℚ) :
    ∀ st : List ℚ × ℚ, (values.foldl (distStep base) st).1.length = st.1.length := by
  induction values with
  | nil => intro st; rfl
  | cons v rest ih =>
      intro st
      rw [List.foldl_cons, ih (distStep base st v), distStep_length]

/-! ### Claims C3, C6, C9, C10 -/

/-- Claim C3 divergence: on the all-zero input `[0]` (zero valid samples) the
Go `ComputeLeadDigitDistribution` does not surface any error — its result type
has no error component at all — and instead performs the `0/0` normalization
and returns a full length-9 distribution slice together with the count `0`.
(In this `ℚ` model `0/0 = 0`; in Go float64 arithmetic `0.0/0.0` is NaN, so the
returned slice is NaN-filled.  Either way, no "no valid samples" failure.) -/
theorem distribution_builder_no_error_on_all_zero :
    ComputeLeadDigitDistribution [0] 10 = (List.replicate 9 0, 0) := by
  unfold ComputeLeadDigitDistribution distStep
  norm_num
  decide

/-- The divide-down loop applied to a nonzero-digit expansion
`d_0 + d_1 B + ... + d_{m-1} B^(m-1)` (every digit in `[1, B-1]`) extracts the
highest-order digit `d_{m-1}`. -/
theorem divDown_digit_expansion (B : ℕ) (hB : 2 ≤ B) :
    ∀ m : ℕ, 1 ≤ m → ∀ d : ℕ → ℕ, (∀ k, k < m → 1 ≤ d k ∧ d k ≤ B - 1) →
      divDown B (∑ k ∈ Finset.range m, d k * B ^ k) = d (m - 1) := by
  intro m
  induction m with
  | zero => omega
  | succ n ih =>
      intro _ d hd
      rcases Nat.eq_zero_or_pos n with hn0 | hn1
      · subst hn0
        have hsum : ∑ k ∈ Finset.range 1, d k * B ^ k = d 0 := by simp
        rw [hsum, divDown, dif_neg]
        intro hcon
        have := (hd 0 (by omega)).2
        omega
      · set w : ℕ := ∑ k ∈ Finset.range n, d (k + 1) * B ^ k with hw
        have hsplit : ∑ k ∈ Finset.range (n + 1), d k * B ^ k = B * w + d 0 := by
          rw [Finset.sum_range_succ' (fun k => d k * B ^ k) n]
          have : ∀ k, d (k + 1) * B ^ (k + 1) = B * (d (k + 1) * B ^ k) := by
            intro k
            rw [pow_succ]
            ring
          rw [Finset.sum_congr rfl (fun k _ => this k), ← Finset.mul_sum]
          simp [hw]
        have hw1 : 1 ≤ w := by
          have hone : d 1 * B ^ 0 ≤ w :=
            Finset.single_le_sum (f := fun k => d (k + 1) * B ^ k)
              (fun i _ => Nat.zero_le _) (Finset.mem_range.mpr hn1)
          have := (hd 1 (by omega)).1
          simpa using le_trans (by simpa using this) hone
        have hd0 : d 0 < B := by
          have := (hd 0 (by omega)).2
          omega
        have hge : B ≤ ∑ k ∈ Finset.range (n + 1), d k * B ^ k := by
          rw [hsplit]
          calc B = B * 1 := by ring
            _ ≤ B * w := Nat.mul_le_mul_left B hw1
            _ ≤ B * w + d 0 := Nat.le_add_right _ _
        have hdiv : (∑ k ∈ Finset.range (n + 1), d k * B ^ k) / B = w := by
          rw [hsplit, Nat.mul_add_div (by omega), Nat.div_eq_of_lt hd0]
          omega
        rw [divDown, dif_pos ⟨hge, by omega⟩, hdiv]
        have := ih hn1 (fun k => d (k + 1)) (fun k hk => hd (k + 1) (by omega))
        simpa [Nat.sub_add_cancel hn1] using this

/-- Claim C6: for base `B ≥ 3` and any `m ≥ 1` digits `d_0, ..., d_{m-1}` all
drawn from `[1, B-1]`, the lead digit of `Σ d_k * B^k` is the highest-order
digit `d_{m-1}`. -/
theorem leadDigit_of_digit_expansion (B : ℕ) (hB : 3 ≤ B) (m : ℕ) (hm : 1 ≤ m)
    (d : ℕ → ℕ) (hd : ∀ k, k < m → 1 ≤ d k ∧ d k ≤ B - 1) :
    LeadDigit ((∑ k ∈ Finset.range m, d k * B ^ k : ℕ) : ℚ) (B : ℤ) = (d (m - 1) : ℤ) := by
  set v : ℕ := ∑ k ∈ Finset.range m, d k * B ^ k with hv
  have hv1 : 1 ≤ v := by
    have hone : d 0 * B ^ 0 ≤ v :=
      Finset.single_le_sum (f := fun k => d k * B ^ k)
        (fun i _ => Nat.zero_le _) (Finset.mem_range.mpr (by omega))
    have := (hd 0 (by omega)).1
    simpa using le_trans (by simpa using this) hone
  have hvq : (1 : ℚ) ≤ (v : ℚ) := by exact_mod_cast hv1
  unfold LeadDigit
  rw [if_neg (by push_neg; positivity)]
  rw [mulUp, dif_neg (by push_neg; intro h1 h2; linarith)]
  rw [Int.floor_natCast, Int.toNat_natCast, Int.toNat_natCast]
  exact_mod_cast divDown_digit_expansion B (by omega) m hm d hd

/-- Witness for claim C6: in base 10 with digits `d_0 = 1`, `d_1 = 2` the value
is `21` and the extracted lead digit is `2`. -/
theorem leadDigit_of_digit_expansion_witness :
    LeadDigit ((∑ k ∈ Finset.range 2, (fun k => k + 1) k * 10 ^ k : ℕ) : ℚ) ((10 : ℕ) : ℤ)
      = ((fun k => k + 1) (2 - 1) : ℕ) :=
  leadDigit_of_digit_expansion 10 (by norm_num) 2 (by norm_num) (fun k => k + 1)
    (by intro k hk; interval_cases k <;> norm_num)

/-- Claim C9: for any base at least 2 and any nonzero rational input, both
loops of `LeadDigit` terminate: the multiply-up loop is the loop body iterated
a finite number `k` of times and exits with a value at least `1`, and the
divide-down loop started on the truncated value is the loop body iterated a
finite number `j` of times and exits with a value below `base`. -/
theorem leadDigit_loops_terminate (base : ℤ) (q : ℚ) (hb : 2 ≤ base) (hq : q ≠ 0) :
    (∃ k : ℕ, mulUp base (if q < 0 then -q else q)
        = (base : ℚ) ^ k * (if q < 0 then -q else q) ∧
        1 ≤ mulUp base (if q < 0 then -q else q)) ∧
    (∃ j : ℕ, divDown base.toNat (⌊mulUp base (if q < 0 then -q else q)⌋).toNat
        = (⌊mulUp base (if q < 0 then -q else q)⌋).toNat / base.toNat ^ j ∧
        divDown base.toNat (⌊mulUp base (if q < 0 then -q else q)⌋).toNat < base.toNat) := by
  constructor
  · exact mulUp_spec base _ (abs_step_pos q hq) (by omega)
  · exact divDown_spec base.toNat (by omega) _

/-- Witness for claim C9 at `base = 10`, `q = -3`. -/
theorem leadDigit_loops_terminate_witness :
    (∃ k : ℕ, mulUp 10 (if (-3 : ℚ) < 0 then -(-3 : ℚ) else (-3 : ℚ))
        = (((10 : ℤ)) : ℚ) ^ k * (if (-3 : ℚ) < 0 then -(-3 : ℚ) else (-3 : ℚ)) ∧
        1 ≤ mulUp 10 (if (-3 : ℚ) < 0 then -(-3 : ℚ) else (-3 : ℚ))) ∧
    (∃ j : ℕ, divDown (10 : ℤ).toNat
          (⌊mulUp 10 (if (-3 : ℚ) < 0 then -(-3 : ℚ) else (-3 : ℚ))⌋).toNat
        = (⌊mulUp 10 (if (-3 : ℚ) < 0 then -(-3 : ℚ) else (-3 : ℚ))⌋).toNat
            / (10 : ℤ).toNat ^ j ∧
        divDown (10 : ℤ).toNat
          (⌊mulUp 10 (if (-3 : ℚ) < 0 then -(-3 : ℚ) else (-3 : ℚ))⌋).toNat
          < (10 : ℤ).toNat) :=
  leadDigit_loops_terminate 10 (-3) (by norm_num) (by norm_num)

/-- Claim C10: for any base at least 2, every valid (nonzero) sample has a lead
digit in `[1, base-1]`, hence the tally index `leadDigit - 1` is within the
length-`(base-1)` slice, and the slice returned by
`ComputeLeadDigitDistribution` always has length exactly `base-1`. -/
theorem distribution_builder_in_bounds (base : ℤ) (hb : 2 ≤ base) :
    (∀ q : ℚ, q ≠ 0 → 1 ≤ LeadDigit q base ∧ LeadDigit q base ≤ base - 1 ∧
      (LeadDigit q base - 1).toNat < (base - 1).toNat) ∧
    (∀ values : List ℚ,
      (ComputeLeadDigitDistribution values base).1.length = (base - 1).toNat) := by
  constructor
  · intro q hq
    obtain ⟨h1, h2⟩ := leadDigit_bounds base hb q hq
    exact ⟨h1, h2, by omega⟩
  · intro values
    unfold ComputeLeadDigitDistribution
    simp only [List.length_map]
    rw [foldl_distStep_length]
    simp

/-- Witness for claim C10 at `base = 10`, sample `21`, empty input batch. -/
theorem distribution_builder_in_bounds_witness :
    (1 ≤ LeadDigit 21 10 ∧ LeadDigit 21 10 ≤ 10 - 1 ∧
      (LeadDigit 21 10 - 1).toNat < ((10 : ℤ) - 1).toNat) ∧
    (ComputeLeadDigitDistribution [] 10).1.length = ((10 : ℤ) - 1).toNat :=
  ⟨(distribution_builder_in_bounds 10 (by norm_num)).1 21 (by norm_num),
   (distribution_builder_in_bounds 10 (by norm_num)).2 []⟩


/-! ### The sampling scan (claim C7) -/

/-- The lockstep scan of the CDF and domain slices returns the entry of the
domain slice at the first index whose CDF entry exceeds `p`, or the fallback
when no entry does. -/
theorem randScan_eq_firstExceed (p : ℝ) (fb : ℤ) :
    ∀ (cs : List ℝ) (ds : List ℤ),
      randScan cs ds p fb =
        match firstExceedIdx p cs with
        | some i => ds.getD i fb
        | none => fb := by
  intro cs
  induction cs with
  | nil =>
      intro ds
      cases ds <;> simp [randScan, firstExceedIdx]
  | cons v rest ih =>
      intro ds
      cases ds with
      | nil =>
          simp only [randScan, firstExceedIdx]
          split
          · simp
          · cases firstExceedIdx p rest <;> simp
      | cons d ds0 =>
          simp only [randScan, firstExceedIdx]
          split
          · simp
          · rw [ih ds0]
            cases firstExceedIdx p rest <;> simp

/-- A first-exceed index is always a valid index of the scanned list. -/
theorem firstExceedIdx_lt_length (p : ℝ) :
    ∀ (cs : List ℝ) (i : ℕ), firstExceedIdx p cs = some i → i < cs.length := by
  intro cs
  induction cs with
  | nil => intro i h; simp [firstExceedIdx] at h
  | cons v rest ih =>
      intro i h
      simp only [firstExceedIdx] at h
      split at h
      · cases h
        exact Nat.succ_pos _
      · cases hidx : firstExceedIdx p rest with
        | none => rw [hidx] at h; simp at h
        | some j =>
            rw [hidx] at h
            have hj : j + 1 = i := by simpa using h
            have := ih j hidx
            simp only [List.length_cons]
            omega

/-- Reading the domain slice at a valid index yields `index + 1`. -/
theorem domain_getD (base : ℤ) (i : ℕ) (fb : ℤ) (hi : i < (base - 1).toNat) :
    (Domain base).getD i fb = (i : ℤ) + 1 := by
  unfold Domain
  set n := (base - 1).toNat with hn
  simp [List.getD, List.getElem?_map, List.getElem?_range hi]

/-- The CDF slice has length `base - 1`. -/
theorem fullCDF_length (base : ℤ) : (FullCDF base).length = (base - 1).toNat := by
  unfold FullCDF
  simp

/-- Claim C7: for base at least 3 and a uniform draw `p` in `[0,1)`, `Rand`
returns the digit at the first index of `FullCDF` whose cumulative probability
exceeds `p`, and `base - 1` when no entry exceeds `p`; consequently the result
always lies in `[1, base-1]`. -/
theorem rand_scans_first_exceeding_digit (base : ℤ) (hb : 3 ≤ base) (p : ℝ)
    (hp0 : 0 ≤ p) (hp1 : p < 1) :
    (Rand base p = match firstExceedIdx p (FullCDF base) with
        | some i => (i : ℤ) + 1
        | none => base - 1) ∧
    1 ≤ Rand base p ∧ Rand base p ≤ base - 1 := by
  cases hidx : firstExceedIdx p (FullCDF base) with
  | none =>
      have hmain : Rand base p = base - 1 := by
        unfold Rand
        rw [randScan_eq_firstExceed, hidx]
      exact ⟨hmain, by omega, by omega⟩
  | some i =>
      have hi : i < (FullCDF base).length := firstExceedIdx_lt_length p _ i hidx
      rw [fullCDF_length] at hi
      have hmain : Rand base p = (i : ℤ) + 1 := by
        unfold Rand
        rw [randScan_eq_firstExceed, hidx]
        exact domain_getD base i (base - 1) hi
      exact ⟨hmain, by omega, by omega⟩

/-- Witness for claim C7 at `base = 10`, `p = 1/2`. -/
theorem rand_scans_first_exceeding_digit_witness :
    (3 : ℤ) ≤ 10 ∧ (0 : ℝ) ≤ 1 / 2 ∧ (1 / 2 : ℝ) < 1 ∧
    1 ≤ Rand 10 (1 / 2) ∧ Rand 10 (1 / 2) ≤ 10 - 1 :=
  ⟨by norm_num, by norm_num, by norm_num,
   (rand_scans_first_exceeding_digit 10 (by norm_num) (1 / 2)
      (by norm_num) (by norm_num)).2.1,
   (rand_scans_first_exceeding_digit 10 (by norm_num) (1 / 2)
      (by norm_num) (by norm_num)).2.2⟩

/-! ### Goodness-of-fit length precondition (claim C8) -/

/-- Claim C8: each goodness-of-fit entry point (`ChoGainesStat`, `LeemisStat`,
`ChiSquarePValue`) refuses to return a value (modelling `log.Panic`) whenever
the realized distribution length differs from the ideal PDF length
`base - 1`. -/
theorem gof_stats_reject_length_mismatch (base : ℤ) (hb : 3 ≤ base) (nSamples : ℤ)
    (realisedDist : List ℝ) (chiSquare : List ℝ → List ℝ → ℝ)
    (hlen : (realisedDist.length : ℤ) ≠ base - 1) :
    ChoGainesStat base nSamples realisedDist = none ∧
    LeemisStat base nSamples realisedDist = none ∧
    ChiSquarePValue chiSquare base realisedDist = none := by
  have hpdf : (FullPDF base).length = (base - 1).toNat := by
    unfold FullPDF
    simp
  have hne : (FullPDF base).length ≠ realisedDist.length := by
    rw [hpdf]
    omega
  refine ⟨?_, ?_, ?_⟩
  · unfold ChoGainesStat
    rw [if_pos hne]
  · unfold LeemisStat
    rw [if_pos hne]
  · unfold ChiSquarePValue
    rw [if_pos hlen]

/-- Witness for claim C8 at `base = 10` with an empty realized distribution. -/
theorem gof_stats_reject_length_mismatch_witness :
    ChoGainesStat 10 0 [] = none ∧ LeemisStat 10 0 [] = none ∧
    ChiSquarePValue (fun _ _ => 0) 10 [] = none :=
  gof_stats_reject_length_mismatch 10 (by norm_num) 0 [] (fun _ _ => 0) (by norm_num)

end Benfords
